import Mathlib

/-!
Verification development for the ChRIS backend core code.

The Lean definitions below are shallow embeddings of the Python functions in
`chris_backend/plugininstances/models.py`, `chris_backend/pipelines/models.py`
and `chris_backend/core/storage/swiftmanager.py`.  Database rows are modelled
as explicit environments (functions from ids, or association lists standing for
Python dictionaries with their insertion order), loops are modelled by fuel
based recursion where Python loops are unbounded, and calls into the object
store are modelled by passing in the response sequence and recording the
performed operations.
-/

set_option maxRecDepth 4000

/- == Python string primitives, implemented structurally so the kernel can
      evaluate them.  They model CPython semantics for the inputs at hand. == -/

/-- Python whitespace characters recognised by str.strip(). -/
def pyIsSpace (c : Char) : Bool :=
  c = ' ' || c = '\t' || c = '\n' || c = '\x0b' || c = '\x0c' || c = '\r'

/-- Model of the Python expression s.replace(lit-comma, lit-empty): drop every comma. -/
def removeCommas (s : String) : String :=
  String.mk (s.data.filter (fun c => c ≠ ','))

/-- Model of the Python expression s.strip(): drop leading and trailing whitespace. -/
def pyStrip (s : String) : String :=
  String.mk (((s.data.dropWhile pyIsSpace).reverse.dropWhile pyIsSpace).reverse)

/-- Split a character list at every slash character (helper of pathParts). -/
def splitSlashAux : List Char → List Char → List (List Char)
  | [], cur => [cur.reverse]
  | c :: cs, cur =>
    if c = '/' then cur.reverse :: splitSlashAux cs [] else splitSlashAux cs (c :: cur)

/-- Model of pathlib Path(s).parts for a relative POSIX path: the slash separated
components, with empty components dropped (pathlib normalises them away). -/
def pathParts (s : String) : List String :=
  ((splitSlashAux s.data []).map String.mk).filter (fun c => c ≠ "")

/-- Model of str(Path(*parts)): join components with single slashes. -/
def joinParts (ps : List String) : String :=
  String.intercalate "/" ps

/-- Decimal digit character for a value below ten. -/
def digitChar (n : Nat) : Char :=
  if n = 0 then '0' else if n = 1 then '1' else if n = 2 then '2' else if n = 3 then '3'
  else if n = 4 then '4' else if n = 5 then '5' else if n = 6 then '6' else if n = 7 then '7'
  else if n = 8 then '8' else '9'

/-- Helper of natToStr; the fuel argument bounds the number of digits. -/
def natToStrAux : Nat → Nat → List Char → List Char
  | 0, _, acc => acc
  | fuel + 1, n, acc =>
    let acc2 := digitChar (n % 10) :: acc
    if n / 10 = 0 then acc2 else natToStrAux fuel (n / 10) acc2

/-- Decimal rendering of a natural number, as Python str.format renders a
nonnegative integer id. -/
def natToStr (n : Nat) : String := String.mk (natToStrAux (n + 1) n [])

/-- Model of the Python expression int(s) restricted to plain digit strings:
returns none where int() would raise ValueError. -/
def parseNat? (s : String) : Option Nat :=
  if s.data ≠ [] ∧ s.data.all (fun c => c.isDigit) then
    some (s.data.foldl (fun a c => a * 10 + (c.toNat - 48)) 0)
  else none

/- == Python dictionaries as association lists in insertion order. == -/

/-- Membership test, Python `k in d`. -/
def dictMem {α β : Type} [DecidableEq α] (d : List (α × β)) (k : α) : Bool :=
  d.any (fun kv => kv.1 = k)

/-- Lookup, Python `d[k]` returning none on a missing key (KeyError). -/
def dictGet? {α β : Type} [DecidableEq α] (d : List (α × β)) (k : α) : Option β :=
  (d.find? (fun kv => kv.1 = k)).map (fun kv => kv.2)

/-- In-place update of the value stored under an existing key. -/
def dictUpdate {α β : Type} [DecidableEq α] (d : List (α × β)) (k : α) (f : β → β) :
    List (α × β) :=
  d.map (fun kv => if kv.1 = k then (kv.1, f kv.2) else kv)

/- == Execution lineage (PluginInstance in plugininstances/models.py). ==

A PluginInstance row is identified by its integer primary key.  The environment
collects the columns that the lineage methods read: the type and name of the
referenced plugin, the nullable `previous` foreign key, the feed id and the
username of the owner. -/

/-- Environment of PluginInstance rows, keyed by instance id. -/
structure LinEnv where
  ptype : Nat → String
  pname : Nat → String
  prev : Nat → Option Nat
  feedId : Nat → Nat
  ownerName : Nat → String

/-- Outcome of the root finding walk of get_root_instance.  The Python loop has
no cycle guard and no explicit error: `found` is its return, `crashed` is the
AttributeError raised when `previous` is null, `timeout` marks that the walk is
still running after the given number of steps (the loop itself never stops in
that case), and `cycleDetected` is the outcome the specification claims for a
cycle; the embedding can never produce it, which is exactly what the theorems
establish. -/
inductive RootResult where
  | found (r : Nat)
  | crashed
  | timeout
  | cycleDetected
deriving DecidableEq

/-- Embedding of PluginInstance.get_root_instance: walk `previous` links until a
node whose plugin type is fs, with an explicit step bound standing for the
unbounded Python while loop. -/
def get_root_instance (env : LinEnv) : Nat → Nat → RootResult
  | 0, _ => .timeout
  | fuel + 1, cur =>
    if env.ptype cur = "fs" then .found cur
    else
      match env.prev cur with
      | none => .crashed
      | some p => get_root_instance env fuel p

theorem get_root_instance_zero (env : LinEnv) (cur : Nat) :
    get_root_instance env 0 cur = .timeout := rfl

theorem get_root_instance_succ (env : LinEnv) (fuel cur : Nat) :
    get_root_instance env (fuel + 1) cur =
      if env.ptype cur = "fs" then .found cur
      else
        match env.prev cur with
        | none => .crashed
        | some p => get_root_instance env fuel p := rfl

/-- Well-formed ancestor chain: ChainTo env n r l states that walking `previous`
links from node n reaches the fs node r, visiting exactly the nodes of l (from
n itself down to r), with every node before r not of type fs. -/
inductive ChainTo (env : LinEnv) : Nat → Nat → List Nat → Prop where
  | fs (n : Nat) : env.ptype n = "fs" → ChainTo env n n [n]
  | ds (n p r : Nat) (l : List Nat) : env.ptype n ≠ "fs" → env.prev n = some p →
      ChainTo env p r l → ChainTo env n r (n :: l)

/-- Malformed chain: walking from node n hits a null `previous` after k steps
without ever meeting an fs node. -/
inductive BrokenChain (env : LinEnv) : Nat → Nat → Prop where
  | base (n : Nat) : env.ptype n ≠ "fs" → env.prev n = none → BrokenChain env n 1
  | step (n p k : Nat) : env.ptype n ≠ "fs" → env.prev n = some p →
      BrokenChain env p k → BrokenChain env n (k + 1)

theorem chainTo_found (env : LinEnv) {n r : Nat} {l : List Nat}
    (h : ChainTo env n r l) :
    ∀ fuel, l.length ≤ fuel → get_root_instance env fuel n = .found r := by
  induction h with
  | fs n hfs =>
    intro fuel hf
    match fuel, hf with
    | fuel + 1, _ => simp [get_root_instance_succ, hfs]
  | ds n p r l hds hprev _ ih =>
    intro fuel hf
    match fuel, hf with
    | fuel + 1, hf =>
      have hl : l.length ≤ fuel := by simpa using Nat.lt_succ_iff.mp (Nat.lt_of_lt_of_le (by simp) hf)
      simp [get_root_instance_succ, hds, hprev]
      exact ih fuel hl

theorem chainTo_root_fs (env : LinEnv) {n r : Nat} {l : List Nat}
    (h : ChainTo env n r l) : env.ptype r = "fs" := by
  induction h with
  | fs n hfs => exact hfs
  | ds n p r l hds hprev hc ih => exact ih

theorem chainTo_cons (env : LinEnv) {n r : Nat} {l : List Nat}
    (h : ChainTo env n r l) : ∃ l2, l = n :: l2 := by
  cases h with
  | fs => exact ⟨[], rfl⟩
  | ds n p r l => exact ⟨l, rfl⟩

theorem cycle_timeout (env : LinEnv) (S : List Nat)
    (hS : ∀ s ∈ S, env.ptype s ≠ "fs" ∧ ∃ p, env.prev s = some p ∧ p ∈ S) :
    ∀ fuel, ∀ m ∈ S, get_root_instance env fuel m = .timeout := by
  intro fuel
  induction fuel with
  | zero => intro m _; rfl
  | succ fuel ih =>
    intro m hm
    obtain ⟨hty, p, hp, hpS⟩ := hS m hm
    simp [get_root_instance_succ, hty, hp]
    exact ih p hpS

theorem brokenChain_crashed (env : LinEnv) {b k : Nat}
    (h : BrokenChain env b k) :
    ∀ fuel, k ≤ fuel → get_root_instance env fuel b = .crashed := by
  induction h with
  | base n hty hprev =>
    intro fuel hf
    match fuel, hf with
    | fuel + 1, _ => simp [get_root_instance_succ, hty, hprev]
  | step n p k hty hprev _ ih =>
    intro fuel hf
    match fuel, hf with
    | fuel + 1, hf =>
      simp [get_root_instance_succ, hty, hprev]
      exact ih fuel (Nat.lt_succ_iff.mp (Nat.lt_of_lt_of_le (Nat.lt_succ_self k) hf))

/-- C2 (amended): get_root_instance on a well-formed lineage terminates and
returns a node of plugin type fs.  On a previous-chain that cycles without
reaching an fs node the walk never terminates: after every bound of steps it is
still running, and in particular it never raises LineageCycleDetected (the code
has no such guard).  On a chain that reaches a null previous before any fs node
the walk fails with an AttributeError on the null reference. -/
theorem C2_get_root_instance (env : LinEnv)
    (n r : Nat) (l : List Nat) (fuel : Nat)
    (hchain : ChainTo env n r l) (hfuel : l.length ≤ fuel)
    (m : Nat) (S : List Nat) (hmS : m ∈ S)
    (hS : ∀ s ∈ S, env.ptype s ≠ "fs" ∧ ∃ p, env.prev s = some p ∧ p ∈ S)
    (b k : Nat) (hbroken : BrokenChain env b k) (hk : k ≤ fuel) :
    (get_root_instance env fuel n = .found r ∧ env.ptype r = "fs")
    ∧ (∀ f : Nat, get_root_instance env f m = .timeout ∧
        get_root_instance env f m ≠ .cycleDetected)
    ∧ get_root_instance env fuel b = .crashed := by
  refine ⟨⟨chainTo_found env hchain fuel hfuel, chainTo_root_fs env hchain⟩, ?_, ?_⟩
  · intro f
    have ht := cycle_timeout env S hS f m hmS
    exact ⟨ht, by rw [ht]; intro hcon; cases hcon⟩
  · exact brokenChain_crashed env hbroken fuel hk

/-- Environment used to exercise C2: node 0 is an fs root with node 1 as its
ds child, nodes 2 and 3 form a previous-cycle, node 4 has a null previous. -/
def linEnvW : LinEnv :=
  { ptype := fun i => if i = 0 then "fs" else "ds"
    pname := fun _ => "plg"
    prev := fun i => if i = 1 then some 0 else if i = 2 then some 3 else
      if i = 3 then some 2 else none
    feedId := fun _ => 5
    ownerName := fun _ => "alice" }

/-- Witness for C2 at the concrete environment linEnvW. -/
theorem C2_witness :
    (get_root_instance linEnvW 2 1 = .found 0 ∧ linEnvW.ptype 0 = "fs")
    ∧ (get_root_instance linEnvW 7 2 = .timeout ∧
        get_root_instance linEnvW 7 2 ≠ .cycleDetected)
    ∧ get_root_instance linEnvW 2 4 = .crashed := by
  have hchain : ChainTo linEnvW 1 0 [1, 0] :=
    ChainTo.ds 1 0 0 [0] (by decide) (by decide) (ChainTo.fs 0 (by decide))
  have hS : ∀ s ∈ [2, 3], linEnvW.ptype s ≠ "fs" ∧
      ∃ p, linEnvW.prev s = some p ∧ p ∈ [2, 3] := by
    intro s hs
    simp only [List.mem_cons, List.not_mem_nil, or_false] at hs
    rcases hs with rfl | rfl
    · exact ⟨by decide, 3, by decide, by simp⟩
    · exact ⟨by decide, 2, by decide, by simp⟩
  have hbrk : BrokenChain linEnvW 4 1 := BrokenChain.base 4 (by decide) (by decide)
  have h := C2_get_root_instance linEnvW 1 0 [1, 0] 2 hchain (by decide)
    2 [2, 3] (by simp) hS 4 1 hbrk (by decide)
  exact ⟨h.1, h.2.1 7, h.2.2⟩

/-- Two-node previous-cycle used to refute the cycle-detection part of C2. -/
def cycEnv : LinEnv :=
  { ptype := fun _ => "ds"
    pname := fun _ => "plg"
    prev := fun i => some (if i = 0 then 1 else 0)
    feedId := fun _ => 0
    ownerName := fun _ => "u" }

/-- C2 counterexample: on a two-node previous-cycle (n = 2) the claim predicts
that get_root_instance raises LineageCycleDetected within n + 1 = 3 steps; the
code instead is still walking after 0, 1, 2 and 3 steps and never produces the
claimed outcome. -/
theorem C2_counterexample :
    get_root_instance cycEnv 3 0 ≠ .cycleDetected
    ∧ get_root_instance cycEnv 0 0 = .timeout
    ∧ get_root_instance cycEnv 1 0 = .timeout
    ∧ get_root_instance cycEnv 2 0 = .timeout
    ∧ get_root_instance cycEnv 3 0 = .timeout := by decide

/- == Output path derivation (PluginInstance.get_output_path). == -/

/-- One path segment of the output path, Python
format-of slash plugin-name underscore id. -/
def pathSeg (env : LinEnv) (m : Nat) : String :=
  "/" ++ env.pname m ++ "_" ++ natToStr m

/-- Outcome of get_output_path: the returned string, the AttributeError on a
null previous, or a still-running walk. -/
inductive PathResult where
  | ok (s : String)
  | crashed
  | timeout
deriving DecidableEq

/-- Embedding of the while loop inside PluginInstance.get_output_path: walk to
the root, prepending one segment per visited ancestor to the accumulated path,
then prepend username and feed id of the reached fs node. -/
def get_output_path_aux (env : LinEnv) (username : String) :
    Nat → Nat → String → PathResult
  | 0, _, _ => .timeout
  | fuel + 1, cur, path =>
    if env.ptype cur = "fs" then
      .ok (username ++ "/feed_" ++ natToStr (env.feedId cur) ++ path)
    else
      match env.prev cur with
      | none => .crashed
      | some p => get_output_path_aux env username fuel p (pathSeg env p ++ path)

/-- Embedding of PluginInstance.get_output_path: the walk starts with the
segment of the queried node followed by the data leaf, and the username is the
owner of the queried node. -/
def get_output_path (env : LinEnv) (fuel : Nat) (n : Nat) : PathResult :=
  get_output_path_aux env (env.ownerName n) fuel n (pathSeg env n ++ "/data")

/-- Concatenation of the path segments of a list of nodes, in list order. -/
def joinSegs (env : LinEnv) : List Nat → String
  | [] => ""
  | m :: ms => pathSeg env m ++ joinSegs env ms

theorem joinSegs_append (env : LinEnv) (a b : List Nat) :
    joinSegs env (a ++ b) = joinSegs env a ++ joinSegs env b := by
  induction a with
  | nil => simp [joinSegs, String.empty_append]
  | cons m ms ih => simp [joinSegs, ih, String.append_assoc]

theorem joinSegs_snoc (env : LinEnv) (ms : List Nat) (m : Nat) (t : String) :
    joinSegs env ms ++ (pathSeg env m ++ t) = joinSegs env (ms ++ [m]) ++ t := by
  rw [joinSegs_append]
  simp [joinSegs, String.append_empty, String.append_assoc]

theorem chainTo_root_mem (env : LinEnv) {n r : Nat} {l : List Nat}
    (h : ChainTo env n r l) : r ∈ l := by
  induction h with
  | fs n hfs => simp
  | ds n p r l hds hprev hc ih => simp [ih]

theorem get_output_path_aux_chain (env : LinEnv) (u : String)
    {n r : Nat} {l : List Nat} (h : ChainTo env n r l) :
    ∀ fuel, l.length ≤ fuel → ∀ path,
      get_output_path_aux env u fuel n path =
        .ok (u ++ "/feed_" ++ natToStr (env.feedId r) ++
          (joinSegs env l.tail.reverse ++ path)) := by
  induction h with
  | fs n hfs =>
    intro fuel hf path
    match fuel, hf with
    | fuel + 1, _ =>
      simp [get_output_path_aux, hfs, joinSegs, String.empty_append]
  | ds n p r l hds hprev hc ih =>
    intro fuel hf path
    match fuel, hf with
    | fuel + 1, hf =>
      have hl : l.length ≤ fuel := by
        simpa using Nat.lt_succ_iff.mp (Nat.lt_of_lt_of_le (by simp) hf)
      simp only [get_output_path_aux, hds, if_neg hds, hprev]
      rw [ih fuel hl (pathSeg env p ++ path)]
      obtain ⟨l2, rfl⟩ := chainTo_cons env hc
      simp only [List.tail_cons, List.reverse_cons]
      rw [joinSegs_snoc]
      simp

/-- C1: on a well-formed lineage whose nodes all carry the feed of the queried
node, get_output_path returns exactly the owner username, the feed segment, one
plugin-name under-score node-id segment per chain node in root-to-leaf order
(the queried node last) and the fixed data leaf; and any two calls with a
sufficient step bound return byte-identical strings. -/
theorem C1_get_output_path (env : LinEnv) (n r : Nat) (l : List Nat) (fuel : Nat)
    (hchain : ChainTo env n r l)
    (hfeed : ∀ m ∈ l, env.feedId m = env.feedId n)
    (hfuel : l.length ≤ fuel) :
    get_output_path env fuel n =
      .ok (env.ownerName n ++ "/feed_" ++ natToStr (env.feedId n) ++
        (joinSegs env l.reverse ++ "/data"))
    ∧ (∀ fuel2, l.length ≤ fuel2 →
        get_output_path env fuel2 n = get_output_path env fuel n) := by
  have key : ∀ f, l.length ≤ f → get_output_path env f n =
      .ok (env.ownerName n ++ "/feed_" ++ natToStr (env.feedId n) ++
        (joinSegs env l.reverse ++ "/data")) := by
    intro f hfle
    unfold get_output_path
    rw [get_output_path_aux_chain env (env.ownerName n) hchain f hfle
      (pathSeg env n ++ "/data")]
    rw [hfeed r (chainTo_root_mem env hchain)]
    obtain ⟨l2, rfl⟩ := chainTo_cons env hchain
    simp only [List.tail_cons, List.reverse_cons]
    rw [joinSegs_snoc]
  refine ⟨key fuel hfuel, fun fuel2 h2 => ?_⟩
  rw [key fuel hfuel, key fuel2 h2]

/-- Environment used to exercise C1: fs root 0 named dircopy with ds child 1
named simpledsapp, owner alice, feed 7. -/
def linEnvC1 : LinEnv :=
  { ptype := fun i => if i = 0 then "fs" else "ds"
    pname := fun i => if i = 0 then "dircopy" else "simpledsapp"
    prev := fun i => if i = 1 then some 0 else none
    feedId := fun _ => 7
    ownerName := fun _ => "alice" }

/-- Witness for C1 at linEnvC1: the derived output path of node 1 is the
expected concrete string. -/
theorem C1_witness :
    get_output_path linEnvC1 2 1 = .ok "alice/feed_7/dircopy_0/simpledsapp_1/data" := by
  have hchain : ChainTo linEnvC1 1 0 [1, 0] :=
    ChainTo.ds 1 0 0 [0] (by decide) (by decide) (ChainTo.fs 0 (by decide))
  have h := (C1_get_output_path linEnvC1 1 0 [1, 0] 2 hchain
    (fun m _ => rfl) (by decide)).1
  rw [h]
  decide

/- == Output registration (PluginInstance.register_output_files). ==

The swift listing returned by poll attempt number k (zero based) is modelled by
the function listing; the loop registers one PluginInstanceFile per listed
object, so the registered file count is the length of the final listing. -/

/-- Embedding of the poll loop of register_output_files: while the listing
length is less than or equal to the reported count and fewer than 20 polls were
made, list again.  The fuel argument only serves structural recursion; 21 units
always outlast the 20-iteration Python bound. -/
def register_poll_loop (listing : Nat → List String) (expected : Nat) :
    Nat → List String → Nat → List String × Nat
  | 0, objs, pl => (objs, pl)
  | fuel + 1, objs, pl =>
    if objs.length ≤ expected ∧ pl < 20 then
      register_poll_loop listing expected fuel (listing pl) (pl + 1)
    else (objs, pl)

theorem register_poll_loop_succ (listing : Nat → List String) (expected fuel : Nat)
    (objs : List String) (pl : Nat) :
    register_poll_loop listing expected (fuel + 1) objs pl =
      if objs.length ≤ expected ∧ pl < 20 then
        register_poll_loop listing expected fuel (listing pl) (pl + 1)
      else (objs, pl) := rfl

/-- Result of register_output_files: the final object listing, the number of
registered files and the number of polls performed. -/
structure RegResult where
  l_object : List String
  total : Nat
  pollLoop : Nat
deriving DecidableEq

/-- Embedding of PluginInstance.register_output_files: poll the store starting
from an empty listing and zero polls, then register every object of the final
listing as a file of the instance. -/
def register_output_files (listing : Nat → List String) (expected : Nat) : RegResult :=
  let r := register_poll_loop listing expected 21 [] 0
  { l_object := r.1, total := r.1.length, pollLoop := r.2 }

theorem register_poll_loop_post (listing : Nat → List String) (expected : Nat) :
    ∀ fuel (objs : List String) (pl : Nat), pl ≤ 20 → 20 - pl < fuel →
      (pl ≤ (register_poll_loop listing expected fuel objs pl).2
        ∧ (register_poll_loop listing expected fuel objs pl).2 ≤ 20)
      ∧ ((register_poll_loop listing expected fuel objs pl).2 = pl →
          (register_poll_loop listing expected fuel objs pl).1 = objs)
      ∧ (pl < (register_poll_loop listing expected fuel objs pl).2 →
          (register_poll_loop listing expected fuel objs pl).1 =
            listing ((register_poll_loop listing expected fuel objs pl).2 - 1))
      ∧ ((register_poll_loop listing expected fuel objs pl).1.length > expected
          ∨ (register_poll_loop listing expected fuel objs pl).2 = 20)
      ∧ (∀ j, pl ≤ j → j + 1 < (register_poll_loop listing expected fuel objs pl).2 →
          (listing j).length ≤ expected)
      ∧ (objs.length ≤ expected → pl < 20 →
          pl < (register_poll_loop listing expected fuel objs pl).2)
      ∧ (pl < (register_poll_loop listing expected fuel objs pl).2 →
          objs.length ≤ expected ∧ pl < 20) := by
  intro fuel
  induction fuel with
  | zero => intro objs pl hpl hf; omega
  | succ fuel ih =>
    intro objs pl hpl hf
    rw [register_poll_loop_succ]
    by_cases hc : objs.length ≤ expected ∧ pl < 20
    · rw [if_pos hc]
      have hpl1 : pl + 1 ≤ 20 := hc.2
      have hf1 : 20 - (pl + 1) < fuel := by omega
      have H := ih (listing pl) (pl + 1) hpl1 hf1
      obtain ⟨⟨h1a, h1b⟩, h2, h3, h4, h5, h6, h7⟩ := H
      refine ⟨⟨by omega, h1b⟩, by omega, ?_, h4, ?_, by omega, fun _ => hc⟩
      · intro hlt
        rcases Nat.eq_or_lt_of_le h1a with heq | hlt2
        · rw [h2 heq.symm, heq.symm]
          simp
        · exact h3 hlt2
      · intro j hj hj1
        rcases Nat.eq_or_lt_of_le hj with rfl | hjlt
        · have : pl + 1 < (register_poll_loop listing expected fuel (listing pl) (pl + 1)).2 := by
            omega
          exact (h7 this).1
        · exact h5 j (by omega) hj1
    · rw [if_neg hc]
      have hor : objs.length > expected ∨ pl = 20 := by
        rcases Nat.lt_or_ge pl 20 with h | h
        · left
          by_contra hle
          exact hc ⟨by omega, h⟩
        · right; omega
      exact ⟨⟨Nat.le_refl pl, hpl⟩, fun _ => rfl, by omega, hor,
        fun j hj hj1 => by omega, fun ha hb => absurd ⟨ha, hb⟩ hc, by omega⟩

/-- C3 (amended): the poll loop performs between 1 and 20 listings; the
registered objects are exactly the last listing taken; polling stops as soon as
the number of listed objects strictly exceeds the reported count (the loop
condition keeps polling while the listing length is less than or equal to it)
or after the 20th attempt; every earlier listing was not above the reported
count; and in particular with a reported count of 3 and a store that always
lists 2 objects the loop performs all 20 polls and registers exactly 2 files
with no error. -/
theorem C3_register_output_files (listing : Nat → List String) (expected : Nat) :
    (1 ≤ (register_output_files listing expected).pollLoop
      ∧ (register_output_files listing expected).pollLoop ≤ 20)
    ∧ (register_output_files listing expected).l_object =
        listing ((register_output_files listing expected).pollLoop - 1)
    ∧ ((register_output_files listing expected).l_object.length > expected
        ∨ (register_output_files listing expected).pollLoop = 20)
    ∧ (∀ j, j + 1 < (register_output_files listing expected).pollLoop →
        (listing j).length ≤ expected)
    ∧ (register_output_files listing expected).total =
        (register_output_files listing expected).l_object.length
    ∧ (register_output_files (fun _ => ["f1", "f2"]) 3).pollLoop = 20
    ∧ (register_output_files (fun _ => ["f1", "f2"]) 3).total = 2 := by
  have H := register_poll_loop_post listing expected 21 [] 0 (by omega) (by omega)
  obtain ⟨⟨h1a, h1b⟩, h2, h3, h4, h5, h6, h7⟩ := H
  have hstart : 0 < (register_poll_loop listing expected 21 [] 0).2 :=
    h6 (by simp) (by omega)
  refine ⟨⟨hstart, h1b⟩, h3 hstart, h4, fun j hj => h5 j (by omega) hj, rfl, ?_, ?_⟩
  · decide
  · decide

/-- Witness for C3 at a concrete listing sequence: the store reports 1 object
and the second poll lists 2 objects, so polling stops after the second poll
with those 2 objects registered. -/
theorem C3_witness :
    (1 ≤ (register_output_files (fun k => if k = 0 then ["a"] else ["a", "b"]) 1).pollLoop
      ∧ (register_output_files (fun k => if k = 0 then ["a"] else ["a", "b"]) 1).pollLoop ≤ 20)
    ∧ (register_output_files (fun _ => ["f1", "f2"]) 3).pollLoop = 20
    ∧ (register_output_files (fun _ => ["f1", "f2"]) 3).total = 2 := by
  have H := C3_register_output_files (fun k => if k = 0 then ["a"] else ["a", "b"]) 1
  exact ⟨H.1, H.2.2.2.2.2⟩

/-- C3 counterexample: with a reported count of 3 and a store that lists exactly
3 objects from the first poll on, the claim (stop as soon as at least 3 objects
are listed) predicts a single poll; the code polls all 20 times because its
loop keeps going while the listing length is less than or equal to the reported
count. -/
theorem C3_counterexample :
    (register_output_files (fun _ => ["a", "b", "c"]) 3).pollLoop = 20
    ∧ (register_output_files (fun _ => ["a", "b", "c"]) 3).pollLoop ≠ 1 := by
  refine ⟨?_, ?_⟩ <;> decide

/- == Piping tree reconstruction (Pipeline.get_pipings_tree in
      pipelines/models.py). == -/

/-- A PluginPiping row as read by get_pipings_tree: its id and its nullable
previous reference. -/
structure Piping where
  pipId : Nat
  previous : Option Nat
deriving DecidableEq

/-- Embedding of the loop body of get_pipings_tree.  The tree dictionary maps a
piping id to its list of child ids (the stored piping object itself is
recoverable from the id); a missing previous id on a non root piping would be a
Python AttributeError, modelled as none. -/
def pipings_tree_step (tree : List (Nat × List Nat)) (pip : Piping) :
    Option (List (Nat × List Nat)) :=
  if dictMem tree pip.pipId then some tree
  else
    let tree1 := tree ++ [(pip.pipId, [])]
    match pip.previous with
    | none => none
    | some prevId =>
      if dictMem tree1 prevId then
        some (dictUpdate tree1 prevId (fun cs => cs ++ [pip.pipId]))
      else some (tree1 ++ [(prevId, [pip.pipId])])

/-- Embedding of Pipeline.get_pipings_tree: find the first piping without a
previous as root, seed the dictionary with it, then fold the loop body over the
pipings in iteration order.  Returns the root id and the tree dictionary in
insertion order; none models the IndexError when no root exists, or the
AttributeError inside the loop. -/
def get_pipings_tree (pipings : List Piping) : Option (Nat × List (Nat × List Nat)) :=
  match (pipings.filter (fun p => p.previous = none)).head? with
  | none => none
  | some rootPip =>
    (pipings.foldl (fun acc pip => acc.bind (fun t => pipings_tree_step t pip))
        (some [(rootPip.pipId, [])])).map
      (fun t => (rootPip.pipId, t))

/-- Root piping 1, child 2 under it, grandchild 3 under 2. -/
def pipA : Piping := { pipId := 1, previous := none }

/-- Piping 2 whose previous is the root piping 1. -/
def pipB : Piping := { pipId := 2, previous := some 1 }

/-- Piping 3 whose previous is piping 2. -/
def pipC : Piping := { pipId := 3, previous := some 2 }

/-- C4: get_pipings_tree is not insertion-order independent.  On the chain
1 <- 2 <- 3 presented parent-first the root ends with child list [2]; presented
child-first, piping 2 is first inserted as a placeholder parent and its own
iteration turn is skipped, so it is never registered under the root: the root
child list comes out empty and the two results are not isomorphic. -/
theorem C4_get_pipings_tree_order_dependent :
    get_pipings_tree [pipA, pipB, pipC] = some (1, [(1, [2]), (2, [3]), (3, [])])
    ∧ get_pipings_tree [pipC, pipB, pipA] = some (1, [(1, []), (3, []), (2, [3])])
    ∧ dictGet? [(1, [2]), (2, [3]), (3, [])] 1 ≠ dictGet? [(1, []), (3, []), (2, [3])] 1 := by
  refine ⟨?_, ?_, ?_⟩ <;> decide

/- == Object-name sanitization (SwiftManager.sanitize_obj_names in
      core/storage/swiftmanager.py). ==

The exhaustive listing under the given path is passed in as a list of object
keys; the copy and delete calls performed against the store are recorded in
order as explicit operations. -/

/-- A mutating object-store call performed during sanitization. -/
inductive StoreOp where
  | copyObj (src dst : String)
  | deleteObj (p : String)
deriving DecidableEq

/-- Model of Path(s).name: the last nonempty path component, or the empty
string when there is none. -/
def pathLeafName (s : String) : String :=
  (pathParts s).getLast?.getD ""

/-- Embedding of SwiftManager.sanitize_obj_names.  Takes the sanitized path and
the exhaustive listing that self.ls(path) returns, and produces the mapping of
changed object paths together with the sequence of store operations performed.
When the listing is exactly the path itself the whole body is skipped and the
empty mapping is returned with no store operation. -/
def sanitize_obj_names (path : String) (l_ls : List String) :
    List (String × String) × List StoreOp :=
  if l_ls.length = 1 ∧ l_ls.head? = some path then ([], [])
  else
    l_ls.foldl (fun acc objPath =>
      if pyStrip (removeCommas (pathLeafName objPath)) = "" then
        (acc.1 ++ [(objPath, "")], acc.2 ++ [.deleteObj objPath])
      else
        let relParts := (pathParts objPath).drop (pathParts path).length
        let newParts := (relParts.map removeCommas).filter (fun np => pyStrip np ≠ "")
        let newObjParts := pathParts path ++ newParts
        if newObjParts ≠ pathParts objPath then
          (acc.1 ++ [(objPath, joinParts newObjParts)],
            acc.2 ++ [.copyObj objPath (joinParts newObjParts), .deleteObj objPath])
        else acc) ([], [])

/-- C5 counterexample: on the container of the spec example the first object is
renamed to a leaf that keeps the interior space, PIPELINES/ab/c .txt, not to
the claimed PIPELINES/ab/c.txt (comma removal does not remove the blank left
between c and .txt, and Python strip only trims the ends). -/
theorem C5_counterexample :
    (sanitize_obj_names "PIPELINES"
        ["PIPELINES/a,b/c, .txt", "PIPELINES/a,b/ ,,/x.txt"]).1 =
      [("PIPELINES/a,b/c, .txt", "PIPELINES/ab/c .txt"),
       ("PIPELINES/a,b/ ,,/x.txt", "PIPELINES/ab/x.txt")]
    ∧ ("PIPELINES/ab/c .txt" : String) ≠ "PIPELINES/ab/c.txt" := by
  refine ⟨?_, ?_⟩ <;> decide

/-- C5 (amended): on the spec example container the first object becomes
PIPELINES/ab/c .txt (copied then deleted; the space survives comma removal) and
the second collapses its whitespace-only folder component and becomes
PIPELINES/ab/x.txt (copied then deleted); both originals appear as keys of the
returned mapping with these new values and nothing else is in the mapping. -/
theorem C5_sanitize_obj_names :
    sanitize_obj_names "PIPELINES"
        ["PIPELINES/a,b/c, .txt", "PIPELINES/a,b/ ,,/x.txt"] =
      ([("PIPELINES/a,b/c, .txt", "PIPELINES/ab/c .txt"),
        ("PIPELINES/a,b/ ,,/x.txt", "PIPELINES/ab/x.txt")],
       [.copyObj "PIPELINES/a,b/c, .txt" "PIPELINES/ab/c .txt",
        .deleteObj "PIPELINES/a,b/c, .txt",
        .copyObj "PIPELINES/a,b/ ,,/x.txt" "PIPELINES/ab/x.txt",
        .deleteObj "PIPELINES/a,b/ ,,/x.txt"]) := by
  decide

/-- C9: when the exhaustive listing of a path consists of exactly the path
itself, sanitize_obj_names returns the empty mapping and performs no copy and
no delete, whatever commas or whitespace-only components the path contains. -/
theorem C9_sanitize_single_object (path : String) :
    sanitize_obj_names path [path] = ([], []) := by
  unfold sanitize_obj_names
  rw [if_pos ⟨rfl, rfl⟩]

/-- Witness for C9 at a path full of commas and a whitespace-only component. -/
theorem C9_witness :
    sanitize_obj_names "PIPELINES/a,b/ ,,/x.txt" ["PIPELINES/a,b/ ,,/x.txt"] = ([], []) :=
  C9_sanitize_single_object "PIPELINES/a,b/ ,,/x.txt"

/- == Execution plan construction (Pipeline.get_plugin_tree in
      pipelines/models.py). ==

The function reads the pipeline state only through its default parameter
records: each record carries its piping, and the piping carries its id, title,
plugin id, the title of its previous piping and whether its plugin is of type
ts.  Values are modelled as strings, which is all the ts rewriting reads. -/

/-- The slice of a PluginPiping row that get_plugin_tree reads. -/
structure PipingNode where
  pipId : Nat
  title : String
  pluginId : Nat
  prevTitle : Option String
  isTs : Bool
deriving DecidableEq

/-- One default parameter record of a piping. -/
structure PipingDefault where
  piping : PipingNode
  paramName : String
  value : String
deriving DecidableEq

/-- One entry of tree_nodes_dict: the step descriptor emitted for a piping. -/
structure TreeNode where
  plugin_id : Nat
  previousTitle : Option String
  title : String
  defaults : List (String × String)
deriving DecidableEq

/-- Split a character list at every separator character (Python str.split,
which keeps empty pieces). -/
def splitCharAux (sep : Char) : List Char → List Char → List (List Char)
  | [], cur => [cur.reverse]
  | c :: cs, cur =>
    if c = sep then cur.reverse :: splitCharAux sep cs [] else splitCharAux sep cs (c :: cur)

/-- Model of the Python expression s.split(lit-comma). -/
def splitCommas (s : String) : List String :=
  (splitCharAux ',' s.data []).map String.mk

/-- First phase of get_plugin_tree: fold the default parameter records into
tree_nodes_dict (title to descriptor), id_to_title and is_ts_dict, all in
insertion order. -/
def plugin_tree_nodes (dps : List PipingDefault) :
    List (String × TreeNode) × List (Nat × String) × List (String × Bool) :=
  dps.foldl (fun acc dp =>
    let pip := dp.piping
    let acc2 :=
      if dictMem acc.1 pip.title then acc
      else (acc.1 ++ [(pip.title,
              { plugin_id := pip.pluginId, previousTitle := pip.prevTitle,
                title := pip.title, defaults := [] })],
            acc.2.1 ++ [(pip.pipId, pip.title)],
            acc.2.2 ++ [(pip.title, pip.isTs)])
    (dictUpdate acc2.1 pip.title
        (fun nd => { nd with defaults := nd.defaults ++ [(dp.paramName, dp.value)] }),
      acc2.2.1, acc2.2.2)) ([], [], [])

/-- Translate a comma separated list of piping id literals into titles through
id_to_title; none models the ValueError of int() or a KeyError. -/
def mapTitles (idToTitle : List (Nat × String)) : List String → Option (List String)
  | [] => some []
  | s :: ss =>
    match parseNat? s with
    | none => none
    | some i =>
      match dictGet? idToTitle i with
      | none => none
      | some t => (mapTitles idToTitle ss).map (fun ts => t :: ts)

/-- The ts rewriting applied to the defaults of one descriptor: the first
parameter named plugininstances has its nonempty value rewritten from piping
ids to piping titles, and the scan stops there (the Python break). -/
def rewriteTsDefaults (idToTitle : List (Nat × String)) :
    List (String × String) → Option (List (String × String))
  | [] => some []
  | d :: ds =>
    if d.1 = "plugininstances" then
      if d.2 = "" then some (d :: ds)
      else
        match mapTitles idToTitle (splitCommas d.2) with
        | none => none
        | some titles => some ((d.1, String.intercalate "," titles) :: ds)
    else (rewriteTsDefaults idToTitle ds).map (fun ds2 => d :: ds2)

/-- The root title lookup of get_plugin_tree: the first title in
tree_nodes_dict whose descriptor has no previous; none models the IndexError
when there is none. -/
def plugin_tree_root? (tnd : List (String × TreeNode)) : Option String :=
  ((tnd.filter (fun kv => kv.2.previousTitle = none)).head?).map (fun kv => kv.1)

/-- Second phase of get_plugin_tree: iterate over the titles in insertion
order; rewrite ts defaults in place, then link each unvisited title under its
previous title, inserting a placeholder parent entry when the parent has not
been visited (the tree dictionary is keyed by Option String because Python
would happily use None as a key).  Returns the updated tree_nodes_dict and the
child-title dictionary. -/
def plugin_tree_build (idToTitle : List (Nat × String)) (isTsD : List (String × Bool))
    (tnd0 : List (String × TreeNode)) (rootT : String) :
    Option (List (String × TreeNode) × List (Option String × List String)) :=
  (tnd0.map (fun kv => kv.1)).foldl (fun acc title =>
    acc.bind (fun st =>
      let step1 : Option (List (String × TreeNode)) :=
        if (dictGet? isTsD title).getD false then
          match dictGet? st.1 title with
          | none => none
          | some nd =>
            (rewriteTsDefaults idToTitle nd.defaults).map (fun ds2 =>
              dictUpdate st.1 title (fun nd2 => { nd2 with defaults := ds2 }))
        else some st.1
      step1.bind (fun tnd2 =>
        if dictMem st.2 (some title) then some (tnd2, st.2)
        else
          let tree1 := st.2 ++ [(some title, [])]
          match dictGet? tnd2 title with
          | none => none
          | some nd =>
            if dictMem tree1 nd.previousTitle then
              some (tnd2, dictUpdate tree1 nd.previousTitle (fun cs => cs ++ [title]))
            else some (tnd2, tree1 ++ [(nd.previousTitle, [title])])))) 
    (some (tnd0, [(some rootT, [])]))

/-- Third phase of get_plugin_tree: the breadth-first collection of descriptors
from the root, a deque processed front to back; none models a KeyError or a
non-terminating traversal on malformed data. -/
def plugin_tree_bfs (tnd : List (String × TreeNode))
    (tree : List (Option String × List String)) :
    Nat → List String → List TreeNode → Option (List TreeNode)
  | _, [], acc => some acc
  | 0, _ :: _, _ => none
  | fuel + 1, t :: qs, acc =>
    match dictGet? tnd t with
    | none => none
    | some nd =>
      match dictGet? tree (some t) with
      | none => none
      | some children => plugin_tree_bfs tnd tree fuel (qs ++ children) (acc ++ [nd])

/-- Embedding of Pipeline.get_plugin_tree: build the descriptors from the
default parameter records, locate the root, build the child dictionary, then
emit the descriptors in breadth-first order starting at the root. -/
def get_plugin_tree (dps : List PipingDefault) (fuel : Nat) : Option (List TreeNode) :=
  let built := plugin_tree_nodes dps
  match plugin_tree_root? built.1 with
  | none => none
  | some rootT =>
    (plugin_tree_build built.2.1 built.2.2 built.1 rootT).bind (fun st =>
      match dictGet? st.1 rootT with
      | none => none
      | some rootNode =>
        match dictGet? st.2 (some rootT) with
        | none => none
        | some rootChildren => plugin_tree_bfs st.1 st.2 fuel rootChildren [rootNode])

/-- Root step of the C6 template: title a, plugin 11. -/
def pipNodeA : PipingNode :=
  { pipId := 1, title := "a", pluginId := 11, prevTitle := none, isTs := false }

/-- Middle step of the C6 template: title b under a, plugin 12. -/
def pipNodeB : PipingNode :=
  { pipId := 2, title := "b", pluginId := 12, prevTitle := some "a", isTs := false }

/-- Leaf step of the C6 template: title c under b, plugin 13. -/
def pipNodeC : PipingNode :=
  { pipId := 3, title := "c", pluginId := 13, prevTitle := some "b", isTs := false }

/-- Default parameter records of the C6 template with the parent-first
iteration order. -/
def dpsParentFirst : List PipingDefault :=
  [{ piping := pipNodeA, paramName := "p", value := "v" },
   { piping := pipNodeB, paramName := "p", value := "v" },
   { piping := pipNodeC, paramName := "p", value := "v" }]

/-- Default parameter records of the same template with the child-first
iteration order (the order of the records is DB dependent). -/
def dpsChildFirst : List PipingDefault :=
  [{ piping := pipNodeC, paramName := "p", value := "v" },
   { piping := pipNodeB, paramName := "p", value := "v" },
   { piping := pipNodeA, paramName := "p", value := "v" }]

/-- C6: get_plugin_tree is not faithful to the template for every record
order.  With parent-first records the three steps come out in breadth-first
order with every previous title emitted earlier; with child-first records step
b is first created as a placeholder parent, its own turn is skipped, it is
never linked under the root, and the emitted plan contains only the root: steps
b and c are dropped, so not every step appears exactly once. -/
theorem C6_get_plugin_tree_drops_steps :
    get_plugin_tree dpsParentFirst 10 =
      some [{ plugin_id := 11, previousTitle := none, title := "a", defaults := [("p", "v")] },
            { plugin_id := 12, previousTitle := some "a", title := "b", defaults := [("p", "v")] },
            { plugin_id := 13, previousTitle := some "b", title := "c", defaults := [("p", "v")] }]
    ∧ get_plugin_tree dpsChildFirst 10 =
      some [{ plugin_id := 11, previousTitle := none, title := "a", defaults := [("p", "v")] }]
    ∧ (get_plugin_tree dpsChildFirst 10).map List.length ≠ some 3 := by
  refine ⟨?_, ?_, ?_⟩ <;> decide

/- == Object existence check (SwiftManager.obj_exists in
      core/storage/swiftmanager.py). ==

The response of the head_object call on attempt number i is modelled by the
function resp; the number of backoff sleeps performed is returned with the
outcome. -/

/-- Response of one head_object attempt: success, a 404 ClientException, or any
other ClientException (transport or ambiguous failure). -/
inductive HeadResp where
  | ok
  | notFound
  | transientErr
deriving DecidableEq

/-- Outcome of obj_exists: a returned boolean or a propagated exception. -/
inductive ObjExistsResult where
  | ret (b : Bool)
  | raised
deriving DecidableEq

/-- Embedding of the retry loop of obj_exists: attempt i returns true on
success, returns false on 404 with no further attempt, re-raises on the fifth
consecutive other failure and otherwise sleeps once and retries.  The fuel of 5
covers the range(5) loop; the zero case is unreachable from obj_exists. -/
def obj_exists_aux (resp : Nat → HeadResp) : Nat → Nat → Nat → ObjExistsResult × Nat
  | 0, _, sleeps => (.raised, sleeps)
  | fuel + 1, i, sleeps =>
    match resp i with
    | .ok => (.ret true, sleeps)
    | .notFound => (.ret false, sleeps)
    | .transientErr =>
      if i = 4 then (.raised, sleeps)
      else obj_exists_aux resp fuel (i + 1) (sleeps + 1)

/-- Embedding of SwiftManager.obj_exists, starting at attempt 0 with no sleeps
performed. -/
def obj_exists (resp : Nat → HeadResp) : ObjExistsResult × Nat :=
  obj_exists_aux resp 5 0 0

/-- C7: a definitive 404 on the first attempt returns false at once with no
backoff sleep; four transient failures followed by a success return true after
exactly 4 backoff sleeps; five consecutive transient failures propagate the
exception (after the 4 sleeps of the first four failures, none after the
fifth). -/
theorem C7_obj_exists (resp : Nat → HeadResp) :
    (resp 0 = .notFound → obj_exists resp = (.ret false, 0))
    ∧ ((∀ j, j < 4 → resp j = .transientErr) → resp 4 = .ok →
        obj_exists resp = (.ret true, 4))
    ∧ ((∀ j, j < 5 → resp j = .transientErr) → obj_exists resp = (.raised, 4)) := by
  refine ⟨?_, ?_, ?_⟩
  · intro h
    simp [obj_exists, obj_exists_aux, h]
  · intro h h4
    simp [obj_exists, obj_exists_aux, h 0 (by omega), h 1 (by omega), h 2 (by omega),
      h 3 (by omega), h4]
  · intro h
    simp [obj_exists, obj_exists_aux, h 0 (by omega), h 1 (by omega), h 2 (by omega),
      h 3 (by omega), h 4 (by omega)]

/-- Witness for C7 at three concrete response sequences. -/
theorem C7_witness :
    obj_exists (fun _ => .notFound) = (.ret false, 0)
    ∧ obj_exists (fun k => if k < 4 then .transientErr else .ok) = (.ret true, 4)
    ∧ obj_exists (fun _ => .transientErr) = (.raised, 4) := by
  refine ⟨(C7_obj_exists (fun _ => .notFound)).1 rfl, ?_, ?_⟩
  · exact (C7_obj_exists (fun k => if k < 4 then .transientErr else .ok)).2.1
      (fun j hj => by simp [hj]) (by simp)
  · exact (C7_obj_exists (fun _ => .transientErr)).2.2 (fun j hj => rfl)

/- == Feed assignment on save (PluginInstance.save). ==

The feed a save would leave on the instance is computed from the plugin type,
the feed already assigned (if any), and the feed of the previous instance; a
none result means the instance reaches the database save with no feed set, so
the save fails on the non-null foreign key. -/

/-- A Feed as created by PluginInstance._save_feed: named after the plugin and
owned by the instantiating user alone. -/
structure Feed where
  name : String
  owners : List String
deriving DecidableEq

/-- Embedding of the feed logic of PluginInstance.save: when no feed is set
yet, an fs instance gets a freshly created feed owned by its owner, a ds
instance copies the feed of its previous instance (an AttributeError, modelled
as error, if it has none), and any other type leaves the feed unset. -/
def save_feed_assignment (ptype : String) (hasFeed : Option Feed)
    (prevFeed : Option Feed) (pluginName ownerName : String) :
    Except Unit (Option Feed) :=
  match hasFeed with
  | some f => .ok (some f)
  | none =>
    let afterFs : Option Feed :=
      if ptype = "fs" then some { name := pluginName, owners := [ownerName] } else none
    if ptype = "ds" then
      match prevFeed with
      | none => .error ()
      | some pf => .ok (some pf)
    else .ok afterFs

/-- C8: on a save without an already-assigned feed, a new feed owned by the
instance owner is created exactly for plugin type fs, the feed of the previous
instance is copied exactly for type ds, and any other type leaves the feed
unassigned (so the database save fails); an already-assigned feed is kept. -/
theorem C8_save_feed_assignment (ptype : String) (prevFeed : Option Feed)
    (pluginName ownerName : String) (pf : Feed) :
    (save_feed_assignment "fs" none prevFeed pluginName ownerName =
        .ok (some { name := pluginName, owners := [ownerName] }))
    ∧ (save_feed_assignment "ds" none (some pf) pluginName ownerName = .ok (some pf))
    ∧ (ptype ≠ "fs" → ptype ≠ "ds" →
        save_feed_assignment ptype none prevFeed pluginName ownerName = .ok none)
    ∧ (∀ f : Feed, save_feed_assignment ptype (some f) prevFeed pluginName ownerName =
        .ok (some f)) := by
  refine ⟨?_, ?_, ?_, ?_⟩
  · simp [save_feed_assignment]
  · simp [save_feed_assignment]
  · intro h1 h2
    simp [save_feed_assignment, h1, h2]
  · intro f
    simp [save_feed_assignment]

/-- Witness for C8 at concrete plugin types fs, ds and ts. -/
theorem C8_witness :
    save_feed_assignment "fs" none none "dircopy" "alice" =
      .ok (some { name := "dircopy", owners := ["alice"] })
    ∧ save_feed_assignment "ds" none
        (some { name := "dircopy", owners := ["alice"] }) "x" "bob" =
      .ok (some { name := "dircopy", owners := ["alice"] })
    ∧ save_feed_assignment "ts" none none "x" "bob" = .ok none := by
  refine ⟨(C8_save_feed_assignment "fs" none "dircopy" "alice" ⟨"", []⟩).1,
    (C8_save_feed_assignment "ds" none "x" "bob"
      { name := "dircopy", owners := ["alice"] }).2.1,
    (C8_save_feed_assignment "ts" none "x" "bob" ⟨"", []⟩).2.2.1 (by decide) (by decide)⟩

/- == Descendant enumeration (PluginInstance.get_descendant_instances). ==

The inverse of the previous link is the related name next: for each instance id
the environment gives the list of its children in the order the queryset
returns them.  The Python loop pops from the end of its queue list and extends
the queue with the children of the popped node; the stack is represented here
with its top at the head, so extending with a child list pushes that list
reversed. -/

/-- Environment of the next relation: children of each instance id, in
queryset order. -/
structure NextEnv where
  children : Nat → List Nat

/-- Embedding of the loop of get_descendant_instances: pop the newest queue
entry, push its children, record the popped node.  The fuel bounds the
unbounded Python loop (it never runs out on tree shaped data). -/
def get_descendant_instances_aux (env : NextEnv) : Nat → List Nat → List Nat → List Nat
  | _, [], acc => acc
  | 0, _ :: _, acc => acc
  | fuel + 1, v :: stk, acc =>
    get_descendant_instances_aux env fuel ((env.children v).reverse ++ stk) (acc ++ [v])

/-- Embedding of PluginInstance.get_descendant_instances starting from the
queried node alone. -/
def get_descendant_instances (env : NextEnv) (fuel : Nat) (n : Nat) : List Nat :=
  get_descendant_instances_aux env fuel [n] []

/-- Rose tree of instance ids, the shape of an acyclic next graph below a
node. -/
inductive PTree where
  | node (nid : Nat) (ts : List PTree)

/-- Root id of a rose tree. -/
def PTree.rootId : PTree → Nat
  | .node i _ => i

mutual

/-- Number of nodes of a rose tree. -/
def PTree.size : PTree → Nat
  | .node _ ts => 1 + sizeL ts

/-- Number of nodes of a forest. -/
def sizeL : List PTree → Nat
  | [] => 0
  | t :: ts => PTree.size t + sizeL ts

end

mutual

/-- The id sequence the stack traversal of get_descendant_instances produces on
a rose tree: the root, then the subtrees newest first. -/
def PTree.flat : PTree → List Nat
  | .node i ts => i :: flatRev ts

/-- Traversal of a forest in reverse order. -/
def flatRev : List PTree → List Nat
  | [] => []
  | t :: ts => flatRev ts ++ PTree.flat t

end

mutual

/-- All ids of a rose tree, in plain preorder. -/
def PTree.ids : PTree → List Nat
  | .node i ts => i :: idsL ts

/-- All ids of a forest. -/
def idsL : List PTree → List Nat
  | [] => []
  | t :: ts => PTree.ids t ++ idsL ts

end

/-- Coherence of a rose tree with the next environment: at every tree node the
stored child list of the environment is exactly the list of subtree roots. -/
inductive Coherent (env : NextEnv) : PTree → Prop where
  | mk (i : Nat) (ts : List PTree) :
      env.children i = ts.map PTree.rootId →
      (∀ t ∈ ts, Coherent env t) →
      Coherent env (.node i ts)

/-- Traversal of a stack of trees, top first. -/
def flatStack : List PTree → List Nat
  | [] => []
  | t :: ts => PTree.flat t ++ flatStack ts

theorem flatStack_append (a b : List PTree) :
    flatStack (a ++ b) = flatStack a ++ flatStack b := by
  induction a with
  | nil => simp [flatStack]
  | cons t ts ih => simp [flatStack, ih]

theorem flatStack_reverse (l : List PTree) : flatStack l.reverse = flatRev l := by
  induction l with
  | nil => rfl
  | cons t ts ih => simp [flatStack, flatStack_append, flatRev, ih]

theorem sizeL_append (a b : List PTree) : sizeL (a ++ b) = sizeL a + sizeL b := by
  induction a with
  | nil => simp [sizeL]
  | cons t ts ih => simp [sizeL, ih]; omega

theorem sizeL_reverse (l : List PTree) : sizeL l.reverse = sizeL l := by
  induction l with
  | nil => rfl
  | cons t ts ih => simp [sizeL, sizeL_append, ih]; omega

theorem desc_aux_sim (env : NextEnv) :
    ∀ fuel (l : List PTree) (acc : List Nat),
      (∀ t ∈ l, Coherent env t) → sizeL l ≤ fuel →
      get_descendant_instances_aux env fuel (l.map PTree.rootId) acc =
        acc ++ flatStack l := by
  intro fuel
  induction fuel with
  | zero =>
    intro l acc hcoh hsz
    cases l with
    | nil => simp [get_descendant_instances_aux, flatStack]
    | cons t ts =>
      exfalso
      cases t with
      | node i ts2 =>
        simp [sizeL, PTree.size] at hsz
  | succ fuel ih =>
    intro l acc hcoh hsz
    cases l with
    | nil => simp [get_descendant_instances_aux, flatStack]
    | cons t rest =>
      cases t with
      | node i ts =>
        have hcn := hcoh _ (List.mem_cons_self _ _)
        cases hcn with
        | mk _ _ hchild htsub =>
          have hstep : get_descendant_instances_aux env (fuel + 1)
              ((PTree.node i ts :: rest).map PTree.rootId) acc =
              get_descendant_instances_aux env fuel
                ((env.children i).reverse ++ rest.map PTree.rootId) (acc ++ [i]) := rfl
          rw [hstep, hchild, ← List.map_reverse, ← List.map_append]
          rw [ih (ts.reverse ++ rest) (acc ++ [i]) ?_ ?_]
          · rw [flatStack_append, flatStack_reverse]
            simp [flatStack, PTree.flat]
          · intro s hs
            rcases List.mem_append.mp hs with h | h
            · exact htsub s (List.mem_reverse.mp h)
            · exact hcoh s (List.mem_cons_of_mem _ h)
          · rw [sizeL_append, sizeL_reverse]
            simp [sizeL, PTree.size] at hsz
            omega

mutual

theorem flat_perm_ids : ∀ t : PTree, t.flat.Perm t.ids
  | .node i ts => by
    simp only [PTree.flat, PTree.ids]
    exact List.Perm.cons i (flatRev_perm_idsL ts)

theorem flatRev_perm_idsL : ∀ l : List PTree, (flatRev l).Perm (idsL l)
  | [] => List.Perm.refl []
  | t :: ts => by
    simp only [flatRev, idsL]
    exact ((flatRev_perm_idsL ts).append (flat_perm_ids t)).trans List.perm_append_comm

end

/-- C10: on an acyclic next graph below the queried node (a rose tree coherent
with the environment), get_descendant_instances returns a list whose first
element is the queried node itself, a node without children yields exactly the
one-element list of itself, and with distinct ids every node reachable through
next appears exactly once in the result. -/
theorem C10_get_descendant_instances (env : NextEnv) (t : PTree) (fuel : Nat)
    (hcoh : Coherent env t) (hfuel : t.size ≤ fuel) :
    get_descendant_instances env fuel t.rootId = t.flat
    ∧ (get_descendant_instances env fuel t.rootId).head? = some t.rootId
    ∧ (env.children t.rootId = [] →
        get_descendant_instances env fuel t.rootId = [t.rootId])
    ∧ (t.ids.Nodup → ∀ x ∈ t.ids,
        (get_descendant_instances env fuel t.rootId).count x = 1) := by
  have hmain : get_descendant_instances env fuel t.rootId = t.flat := by
    unfold get_descendant_instances
    have h := desc_aux_sim env fuel [t] []
      (by intro s hs; rcases List.mem_singleton.mp hs with rfl; exact hcoh)
      (by simp [sizeL]; omega)
    simpa [flatStack] using h
  refine ⟨hmain, ?_, ?_, ?_⟩
  · rw [hmain]
    cases t with
    | node i ts => simp [PTree.flat, PTree.rootId]
  · intro hch
    rw [hmain]
    cases t with
    | node i ts =>
      cases hcoh with
      | mk _ _ hchild _ =>
        have : ts.map PTree.rootId = [] := by
          rw [← hchild]
          simpa [PTree.rootId] using hch
        have hts : ts = [] := List.map_eq_nil_iff.mp this
        subst hts
        simp [PTree.flat, PTree.rootId, flatRev]
  · intro hnd x hx
    rw [hmain, (flat_perm_ids t).count_eq x]
    exact List.count_eq_one_of_mem hnd hx

/-- Next environment used to exercise C10: node 1 has children 2 and 3, which
are leaves. -/
def nextEnvW : NextEnv :=
  { children := fun i => if i = 1 then [2, 3] else [] }

/-- The rose tree below node 1 in nextEnvW. -/
def treeW : PTree := .node 1 [.node 2 [], .node 3 []]

/-- Witness for C10 at nextEnvW: the traversal from node 1 starts with node 1,
visits nodes 2 and 3 exactly once (newest frontier first), and the traversal
from leaf 2 is the singleton of node 2. -/
theorem C10_witness :
    get_descendant_instances nextEnvW 3 1 = [1, 3, 2]
    ∧ (get_descendant_instances nextEnvW 3 1).head? = some 1
    ∧ get_descendant_instances nextEnvW 3 2 = [2]
    ∧ (get_descendant_instances nextEnvW 3 1).count 2 = 1 := by
  have coh2 : Coherent nextEnvW (.node 2 []) :=
    Coherent.mk 2 [] (by decide) (by intro s hs; cases hs)
  have coh3 : Coherent nextEnvW (.node 3 []) :=
    Coherent.mk 3 [] (by decide) (by intro s hs; cases hs)
  have coh1 : Coherent nextEnvW treeW := by
    refine Coherent.mk 1 [.node 2 [], .node 3 []] (by decide) ?_
    intro s hs
    simp only [List.mem_cons, List.not_mem_nil, or_false] at hs
    rcases hs with rfl | rfl
    · exact coh2
    · exact coh3
  have h1 := C10_get_descendant_instances nextEnvW treeW 3 coh1 (by decide)
  have h2 := C10_get_descendant_instances nextEnvW (.node 2 []) 3 coh2 (by decide)
  refine ⟨?_, h1.2.1, ?_, ?_⟩
  · exact h1.1.trans (by decide)
  · exact h2.2.2.1 (by decide)
  · exact h1.2.2.2 (by decide) 2 (by decide)
